import Mathlib

/-!
Verification of the structural-extraction and heuristic-classification core of
the smart-test-generator repository, shallowly embedded in Lean 4.

Embedding conventions:
* Python `ast` nodes are modelled by the inductive type `Node` below; only the
  node kinds the analysed code inspects are given dedicated constructors.
* Python dicts produced by the extractors are modelled as structures whose
  fields are exactly the keys the producing code writes; keys that downstream
  code reads with `.get` but that the producer never writes are modelled as
  `Option` fields defaulting to `none` (dict key absent).
* Python strings are Lean `String`s; `needle in hay` is `pyIn needle hay`,
  `s.lower()` is `pyLower s` (ASCII identifiers only appear here), and
  f-strings become `++`-concatenations.
* Machine integers do not occur: all counts are small `Nat`s.
-/

/-! ### Python string primitives -/

/-- Model of Python `str.lower` (character-wise; all strings involved are ASCII). -/
def pyLower (s : String) : String := ⟨s.data.map Char.toLower⟩

/-- Substring test on character lists: `isSubL pat l` is true iff `pat` occurs
contiguously in `l`. -/
def isSubL (pat : List Char) : List Char → Bool
  | [] => pat.isEmpty
  | c :: cs => pat.isPrefixOf (c :: cs) || isSubL pat cs

/-- Model of Python `needle in hay` for strings. -/
def pyIn (needle hay : String) : Bool := isSubL needle.data hay.data

/-- Model of Python `s.startswith(pre)`. -/
def pyStartsWith (s pre : String) : Bool := pre.data.isPrefixOf s.data

/-- Model of Python `any(keyword in name.lower() for keyword in keywords)`. -/
def nameHasAny (nm : String) (keywords : List String) : Bool :=
  keywords.any fun k => pyIn k (pyLower nm)

/-- Model of Python `', '.join(items)`. -/
def commaJoin : List String → String
  | [] => ""
  | [x] => x
  | x :: xs => x ++ ", " ++ commaJoin xs

/-- One left-to-right scan of Python `str.replace(pat, rep)` on char lists.
The first argument is fuel; the callers pass the length of the subject list,
which always suffices because each step consumes at least one character. -/
def replaceL (pat rep : List Char) : Nat → List Char → List Char
  | _, [] => []
  | 0, l => l
  | fuel + 1, c :: cs =>
    if pat ≠ [] ∧ pat.isPrefixOf (c :: cs) then
      rep ++ replaceL pat rep fuel ((c :: cs).drop pat.length)
    else
      c :: replaceL pat rep fuel cs

/-- Model of Python `s.replace(pat, rep)`. -/
def pyReplace (s pat rep : String) : String :=
  ⟨replaceL pat.data rep.data s.data.length s.data⟩

/-- Model of Python `s.rstrip(c)` for a single strip character. -/
def pyRstrip (s : String) (c : Char) : String :=
  ⟨(s.data.reverse.dropWhile (· == c)).reverse⟩

/-- Model of Python `s.split('.')[0]`. -/
def pyFirstComponent (s : String) : String :=
  ⟨s.data.takeWhile (· ≠ '.')⟩

/-! ### The syntax-tree model

Constructors mirror the `ast` node classes the repository inspects.  The
`arguments` container node is inlined into the two function-definition
constructors (it carries no information the analysed code observes beyond its
fields), and `ast.alias` entries of import statements are carried as
`(name, asname)` pairs.  A function argument is an `argNode` (Python
`ast.arg`). -/

inductive Node where
  | module (body : List Node)
  | functionDef (name : String) (args : List Node) (vararg kwarg : Option Node)
      (defaults : List Node) (body : List Node) (decorator_list : List Node)
      (returns : Option Node) (lineno : Nat)
  | asyncFunctionDef (name : String) (args : List Node) (vararg kwarg : Option Node)
      (defaults : List Node) (body : List Node) (decorator_list : List Node)
      (returns : Option Node) (lineno : Nat)
  | classDef (name : String) (bases : List Node) (body : List Node) (lineno : Nat)
  | ifStmt (test : Node) (body orelse : List Node)
  | whileStmt (test : Node) (body orelse : List Node)
  | forStmt (target iter : Node) (body orelse : List Node)
  | tryStmt (body handlers orelse finalbody : List Node)
  | exceptHandler (body : List Node)
  | returnStmt (value : Option Node)
  | exprStmt (value : Node)
  | passStmt
  | annAssign (target anno : Node)
  | importStmt (names : List (String × Option String))
  | importFrom (module : Option String) (names : List (String × Option String))
  | argNode (arg : String) (anno : Option Node)
  | nameE (id : String)
  | attributeE (value : Node) (attr : String)
  | callE (func : Node) (args : List Node)
  | constantE (value : String)
  | subscriptE (value slice : Node)
  | tupleE (elts : List Node)
  | boolOpE (op : String) (values : List Node)

/-- The child nodes of a node, as iterated by `ast.iter_child_nodes`. -/
def children : Node → List Node
  | .module body => body
  | .functionDef _ args va kw defs body decos ret _ =>
      args ++ va.toList ++ kw.toList ++ defs ++ body ++ decos ++ ret.toList
  | .asyncFunctionDef _ args va kw defs body decos ret _ =>
      args ++ va.toList ++ kw.toList ++ defs ++ body ++ decos ++ ret.toList
  | .classDef _ bases body _ => bases ++ body
  | .ifStmt test body orelse => test :: (body ++ orelse)
  | .whileStmt test body orelse => test :: (body ++ orelse)
  | .forStmt target iter body orelse => target :: iter :: (body ++ orelse)
  | .tryStmt body handlers orelse finalbody => body ++ handlers ++ orelse ++ finalbody
  | .exceptHandler body => body
  | .returnStmt value => value.toList
  | .exprStmt value => [value]
  | .passStmt => []
  | .annAssign target anno => [target, anno]
  | .importStmt _ => []
  | .importFrom _ _ => []
  | .argNode _ anno => anno.toList
  | .nameE _ => []
  | .attributeE value _ => [value]
  | .callE func args => func :: args
  | .constantE _ => []
  | .subscriptE value slice => [value, slice]
  | .tupleE elts => elts
  | .boolOpE _ values => values

mutual
/-- Structurally recursive size of a node (the auto-derived `SizeOf` for this
nested inductive is not executable, so the traversal measure is defined by
hand). -/
def nodeSize : Node → Nat
  | .module body => 1 + nodesSize body
  | .functionDef _ args va kw defs body decos ret _ =>
      1 + nodesSize args + optNodeSize va + optNodeSize kw + nodesSize defs +
        nodesSize body + nodesSize decos + optNodeSize ret
  | .asyncFunctionDef _ args va kw defs body decos ret _ =>
      1 + nodesSize args + optNodeSize va + optNodeSize kw + nodesSize defs +
        nodesSize body + nodesSize decos + optNodeSize ret
  | .classDef _ bases body _ => 1 + nodesSize bases + nodesSize body
  | .ifStmt test body orelse => 1 + nodeSize test + nodesSize body + nodesSize orelse
  | .whileStmt test body orelse => 1 + nodeSize test + nodesSize body + nodesSize orelse
  | .forStmt target iter body orelse =>
      1 + nodeSize target + nodeSize iter + nodesSize body + nodesSize orelse
  | .tryStmt body handlers orelse finalbody =>
      1 + nodesSize body + nodesSize handlers + nodesSize orelse + nodesSize finalbody
  | .exceptHandler body => 1 + nodesSize body
  | .returnStmt value => 1 + optNodeSize value
  | .exprStmt value => 1 + nodeSize value
  | .passStmt => 1
  | .annAssign target anno => 1 + nodeSize target + nodeSize anno
  | .importStmt _ => 1
  | .importFrom _ _ => 1
  | .argNode _ anno => 1 + optNodeSize anno
  | .nameE _ => 1
  | .attributeE value _ => 1 + nodeSize value
  | .callE func args => 1 + nodeSize func + nodesSize args
  | .constantE _ => 1
  | .subscriptE value slice => 1 + nodeSize value + nodeSize slice
  | .tupleE elts => 1 + nodesSize elts
  | .boolOpE _ values => 1 + nodesSize values

def nodesSize : List Node → Nat
  | [] => 0
  | n :: ns => nodeSize n + nodesSize ns

def optNodeSize : Option Node → Nat
  | none => 0
  | some n => nodeSize n
end

theorem nodesSize_nil : nodesSize [] = 0 := rfl

theorem nodesSize_cons (a : Node) (l : List Node) :
    nodesSize (a :: l) = nodeSize a + nodesSize l := rfl

theorem nodesSize_append (l₁ l₂ : List Node) :
    nodesSize (l₁ ++ l₂) = nodesSize l₁ + nodesSize l₂ := by
  induction l₁ with
  | nil => simp [nodesSize]
  | cons a l ih =>
      simp only [List.cons_append, nodesSize_cons, ih]
      omega

theorem nodesSize_toList (o : Option Node) : nodesSize o.toList = optNodeSize o := by
  cases o <;> simp [nodesSize, optNodeSize, Option.toList]

theorem nodesSize_children_lt (n : Node) : nodesSize (children n) < nodeSize n := by
  cases n <;>
    simp only [children, nodesSize_append, nodesSize_cons, nodesSize_nil, nodesSize_toList,
      nodeSize] <;>
    omega

/-- Breadth-first traversal queue, mirroring `ast.walk` (a deque that pops from
the front and extends with the popped node's children).  `ast.walk` is
documented to yield all descendant nodes "in no specified order"; none of the
verified properties depend on the order. -/
def walkQ : List Node → List Node
  | [] => []
  | n :: q => n :: walkQ (q ++ children n)
termination_by q => nodesSize q
decreasing_by
  simp only [nodesSize_append, nodesSize_cons]
  have := nodesSize_children_lt n
  omega

/-- Fuelled version of `walkQ`; with fuel at least `nodesSize q` it agrees with
`walkQ` (proved below) while reducing definitionally, so that concrete runs of
the pipeline can be evaluated by `decide`. -/
def walkF : Nat → List Node → List Node
  | _, [] => []
  | 0, _ => []
  | fuel + 1, n :: q => n :: walkF fuel (q ++ children n)

/-- Model of `ast.walk(t)`. -/
def walk (t : Node) : List Node := walkF (nodeSize t) [t]

theorem nodeSize_pos (n : Node) : 1 ≤ nodeSize n := by
  have := nodesSize_children_lt n
  omega

theorem walkF_eq_walkQ : ∀ (fuel : Nat) (q : List Node), nodesSize q ≤ fuel → walkF fuel q = walkQ q
  | _, [], _ => by simp [walkF, walkQ]
  | 0, n :: q, h => by
      exfalso
      have h1 := nodeSize_pos n
      simp only [nodesSize_cons] at h
      omega
  | fuel + 1, n :: q, h => by
      have hc := nodesSize_children_lt n
      have hrec : nodesSize (q ++ children n) ≤ fuel := by
        simp only [nodesSize_append]
        simp only [nodesSize_cons] at h
        omega
      simp only [walkF, walkQ]
      rw [walkF_eq_walkQ fuel (q ++ children n) hrec]

theorem walk_eq_walkQ (t : Node) : walk t = walkQ [t] := by
  apply walkF_eq_walkQ
  simp [nodesSize]

/-- `Reaches n a` holds when `a` is `n` itself or lies below `n` in the tree. -/
inductive Reaches : Node → Node → Prop where
  | refl (n : Node) : Reaches n n
  | step {n c a : Node} : c ∈ children n → Reaches c a → Reaches n a

theorem Reaches.trans {a b c : Node} (h1 : Reaches a b) (h2 : Reaches b c) : Reaches a c := by
  induction h1 with
  | refl => exact h2
  | step hc _ ih => exact Reaches.step hc (ih h2)

theorem mem_walkQ : ∀ (q : List Node) (a : Node), a ∈ walkQ q ↔ ∃ n ∈ q, Reaches n a
  | [], a => by simp [walkQ]
  | n :: q, a => by
      rw [walkQ]
      have ih := mem_walkQ (q ++ children n) a
      constructor
      · intro h
        rcases List.mem_cons.mp h with h | h
        · exact ⟨n, List.mem_cons_self n q, h ▸ Reaches.refl n⟩
        · rcases ih.mp h with ⟨m, hm, hr⟩
          rcases List.mem_append.mp hm with hm | hm
          · exact ⟨m, List.mem_cons_of_mem n hm, hr⟩
          · exact ⟨n, List.mem_cons_self n q, Reaches.step hm hr⟩
      · rintro ⟨m, hm, hr⟩
        rcases List.mem_cons.mp hm with rfl | hm
        · cases hr with
          | refl => exact List.mem_cons_self _ _
          | step hc hr' =>
              exact List.mem_cons_of_mem _ (ih.mpr ⟨_, List.mem_append_right q hc, hr'⟩)
        · exact List.mem_cons_of_mem _ (ih.mpr ⟨m, List.mem_append_left _ hm, hr⟩)
termination_by q => nodesSize q
decreasing_by
  simp only [nodesSize_append, nodesSize_cons]
  have := nodesSize_children_lt n
  omega

theorem mem_walk {t a : Node} : a ∈ walk t ↔ Reaches t a := by
  rw [walk_eq_walkQ, mem_walkQ]
  constructor
  · rintro ⟨n, hn, hr⟩
    rcases List.mem_singleton.mp hn with rfl
    exact hr
  · intro h
    exact ⟨t, List.mem_singleton.mpr rfl, h⟩

theorem mem_walk_trans {t c a : Node} (hc : c ∈ walk t) (ha : a ∈ walk c) : a ∈ walk t :=
  mem_walk.mpr ((mem_walk.mp hc).trans (mem_walk.mp ha))

/-! ### Expression stringification

Model of `ast.unparse` restricted to the expression forms that occur as
decorators, annotations and base classes.  Statement nodes are never unparsed
by the analysed code; for them the function returns `""`. -/

mutual
/-- Model of `ast.unparse` on expression nodes.  A tuple-shaped subscript slice
is printed without parentheses (`Union[str, int]`). -/
def unparse : Node → String
  | .nameE id => id
  | .attributeE value attr => unparse value ++ "." ++ attr
  | .callE func args => unparse func ++ "(" ++ unparseList args ++ ")"
  | .constantE value => value
  | .subscriptE value (.tupleE elts) => unparse value ++ "[" ++ unparseList elts ++ "]"
  | .subscriptE value slice => unparse value ++ "[" ++ unparse slice ++ "]"
  | .tupleE elts => "(" ++ unparseList elts ++ ")"
  | .boolOpE op values => unparseJoin (" " ++ op ++ " ") values
  | _ => ""

/-- Comma-separated rendering of a list of expressions. -/
def unparseList : List Node → String
  | [] => ""
  | [e] => unparse e
  | e :: es => unparse e ++ ", " ++ unparseList es

/-- Separator-joined rendering of a list of expressions. -/
def unparseJoin (sep : String) : List Node → String
  | [] => ""
  | [e] => unparse e
  | e :: es => unparse e ++ sep ++ unparseJoin sep es
end

/-! ### Structural records (the dicts built by `ASTAnalyzer`) -/

/-- One entry of the `args` list of a function record
(`{'name': ..., 'annotation': ...}` in the source; the field `anno` models
the `annotation` key, absent when the argument is unannotated). -/
structure ArgRecord where
  name : String
  anno : Option String
deriving DecidableEq, Repr

/-- The dict returned by `ASTAnalyzer._extract_function_info`.  The final three
fields model dict keys that downstream consumers read with `.get` but that this
extractor never writes (`none` = key absent): `unit_generator` reads
`is_static`/`is_classmethod` and `failure_detector` reads `body`. -/
structure FunctionRecord where
  name : String
  args : List ArgRecord
  return_type : Option String
  decorators : List String
  docstring : Option String
  line_number : Nat
  complexity : Nat
  is_async : Bool
  has_varargs : Bool
  has_kwargs : Bool
  has_defaults : Bool
  is_static : Option Bool := none
  is_classmethod : Option Bool := none
  body : Option String := none
deriving DecidableEq, Repr

/-- One entry of the `attributes` list of a class record. -/
structure AttributeRecord where
  name : String
  anno : Option String
deriving DecidableEq, Repr

/-- The dict returned by `ASTAnalyzer._extract_class_info`. -/
structure ClassRecord where
  name : String
  bases : List String
  methods : List FunctionRecord
  attributes : List AttributeRecord
  docstring : Option String
  line_number : Nat
deriving DecidableEq, Repr

/-- One entry of the list returned by `ASTAnalyzer.extract_imports`
(`{'module': ..., 'name': ..., 'type': 'import' | 'from_import'}`). -/
structure ImportRecord where
  module : String
  name : String
  type : String
deriving DecidableEq, Repr

/-! ### ASTAnalyzer -/

/-- Model of `ast.get_docstring` as used by the extractor: the docstring of a
body whose first statement is a bare constant expression. -/
def get_docstring (body : List Node) : Option String :=
  match body with
  | .exprStmt (.constantE s) :: _ => some s
  | _ => none

/-- Model of `ASTAnalyzer._calculate_complexity`: base complexity 1, plus 1 for
every `If`/`While`/`For`/`ExceptHandler` in `ast.walk(node)`, plus
`len(values) - 1` for every `BoolOp`. -/
def calculate_complexity (node : Node) : Nat :=
  (walk node).foldl
    (fun complexity child =>
      match child with
      | .ifStmt _ _ _ => complexity + 1
      | .whileStmt _ _ _ => complexity + 1
      | .forStmt _ _ _ _ => complexity + 1
      | .exceptHandler _ => complexity + 1
      | .boolOpE _ values => complexity + (values.length - 1)
      | _ => complexity)
    1

/-- The arguments loop of `_extract_function_info`: every element of
`node.args.args` is an `ast.arg`; non-`arg` elements cannot occur. -/
def extract_arg : Node → Option ArgRecord
  | .argNode a anno => some ⟨a, anno.map unparse⟩
  | _ => none

/-- Model of `ASTAnalyzer._extract_function_info`.  The catch-all case is
unreachable: the source only calls this on `FunctionDef`/`AsyncFunctionDef`
nodes. -/
def extract_function_info (node : Node) : FunctionRecord :=
  match node with
  | .functionDef nm args va kw defs body decos ret ln =>
      { name := nm
        args := args.filterMap extract_arg
        return_type := ret.map unparse
        decorators := decos.map unparse
        docstring := get_docstring body
        line_number := ln
        complexity := calculate_complexity node
        is_async := false
        has_varargs := va.isSome
        has_kwargs := kw.isSome
        has_defaults := defs.length > 0 }
  | .asyncFunctionDef nm args va kw defs body decos ret ln =>
      { name := nm
        args := args.filterMap extract_arg
        return_type := ret.map unparse
        decorators := decos.map unparse
        docstring := get_docstring body
        line_number := ln
        complexity := calculate_complexity node
        is_async := true
        has_varargs := va.isSome
        has_kwargs := kw.isSome
        has_defaults := defs.length > 0 }
  | _ =>
      { name := "", args := [], return_type := none, decorators := [], docstring := none
        line_number := 0, complexity := calculate_complexity node, is_async := false
        has_varargs := false, has_kwargs := false, has_defaults := false }

/-- The per-node step of `ASTAnalyzer.extract_functions`: a `FunctionDef` is
recorded as is, an `AsyncFunctionDef` is recorded with `is_async` forced to
`True` (as in the source's `func_info['is_async'] = True`). -/
def function_record_of : Node → Option FunctionRecord
  | .functionDef nm args va kw defs body decos ret ln =>
      some (extract_function_info (.functionDef nm args va kw defs body decos ret ln))
  | .asyncFunctionDef nm args va kw defs body decos ret ln =>
      some { extract_function_info (.asyncFunctionDef nm args va kw defs body decos ret ln)
              with is_async := true }
  | _ => none

/-- Model of `ASTAnalyzer.extract_functions`. -/
def extract_functions (tree : Node) : List FunctionRecord :=
  (walk tree).filterMap function_record_of

/-- The class-attribute loop of `_extract_class_info`. -/
def extract_attribute : Node → Option AttributeRecord
  | .annAssign (.nameE id) anno => some ⟨id, some (unparse anno)⟩
  | _ => none

/-- Model of `ASTAnalyzer._extract_class_info`.  Methods are collected from the
direct class body with the same record construction as `extract_functions`.
The catch-all case is unreachable (only called on `ClassDef` nodes). -/
def extract_class_info (node : Node) : ClassRecord :=
  match node with
  | .classDef nm bases body ln =>
      { name := nm
        bases := bases.map unparse
        methods := body.filterMap function_record_of
        attributes := body.filterMap extract_attribute
        docstring := get_docstring body
        line_number := ln }
  | _ =>
      { name := "", bases := [], methods := [], attributes := [], docstring := none
        line_number := 0 }

/-- Model of `ASTAnalyzer.extract_classes`. -/
def extract_classes (tree : Node) : List ClassRecord :=
  (walk tree).filterMap fun node =>
    match node with
    | .classDef nm bases body ln => some (extract_class_info (.classDef nm bases body ln))
    | _ => none

/-- Model of `ASTAnalyzer.extract_imports`. -/
def extract_imports (tree : Node) : List ImportRecord :=
  (walk tree).flatMap fun node =>
    match node with
    | .importStmt names =>
        names.map fun a => { module := a.1, name := a.2.getD a.1, type := "import" }
    | .importFrom module names =>
        names.map fun a =>
          let m := module.getD ""
          { module := if m ≠ "" then m ++ "." ++ a.1 else a.1
            name := a.2.getD a.1
            type := "from_import" }
    | _ => []

/-! ### CodeParser decorator matching -/

/-- The decorator list of a function node (`node.decorator_list`). -/
def decorator_list_of : Node → List Node
  | .functionDef _ _ _ _ _ _ decos _ _ => decos
  | .asyncFunctionDef _ _ _ _ _ _ decos _ _ => decos
  | _ => []

/-- Model of `CodeParser._has_decorator`: a decorator matches when it is a bare
`Name`, an `Attribute` whose attribute is the name, or a `Call` whose callee is
such a `Name` or `Attribute`. -/
def has_decorator (node : Node) (decorator_name : String) : Bool :=
  (decorator_list_of node).any fun decorator =>
    match decorator with
    | .nameE id => id == decorator_name
    | .attributeE _ attr => attr == decorator_name
    | .callE (.nameE id) _ => id == decorator_name
    | .callE (.attributeE _ attr) _ => attr == decorator_name
    | _ => false

/-! ### Deduplication (shared shape of both classifiers)

Both `detect` methods end with the same loop: a membership set `seen` plus an
output list, keeping the first occurrence of each string.  Only membership in
`seen` is observed, so the Python set is modelled as a list. -/

/-- The dedup loop with its `seen` set. -/
def dedupAux (seen : List String) : List String → List String
  | [] => []
  | c :: cs => if c ∈ seen then dedupAux seen cs else c :: dedupAux (c :: seen) cs

/-- Remove duplicates while preserving first-seen order. -/
def dedupFS (l : List String) : List String := dedupAux [] l

namespace EdgeCaseDetector

/-- Model of `EdgeCaseDetector._detect_function_edge_cases`.  Each guarded
block mirrors one `if`/loop of the source, in source order. -/
def detect_function_edge_cases (func : FunctionRecord) : List String :=
  let func_name := func.name
  (if nameHasAny func_name ["divide", "div", "/"] then
    [func_name ++ ": division by zero",
     func_name ++ ": integer overflow in division"] else []) ++
  (if nameHasAny func_name ["sort", "order", "unique"] then
    [func_name ++ ": empty collection",
     func_name ++ ": single element collection",
     func_name ++ ": collection with duplicates"] else []) ++
  (if nameHasAny func_name ["find", "search", "index", "get"] then
    [func_name ++ ": item not found",
     func_name ++ ": empty collection"] else []) ++
  (if nameHasAny func_name ["parse", "convert", "encode", "decode"] then
    [func_name ++ ": empty string input",
     func_name ++ ": invalid input format",
     func_name ++ ": very long input"] else []) ++
  (if nameHasAny func_name ["read", "load", "fetch", "get"] then
    [func_name ++ ": empty file/data",
     func_name ++ ": file not found",
     func_name ++ ": permission denied"] else []) ++
  (if nameHasAny func_name ["write", "save", "store"] then
    [func_name ++ ": write to read-only location",
     func_name ++ ": disk full"] else []) ++
  (func.args.flatMap fun arg =>
    let arg_name := arg.name
    let arg_type := arg.anno.getD ""
    (if arg_type ∈ ["int", "float", "number"] then
      [func_name ++ (": " ++ arg_name ++ " = 0"),
       func_name ++ (": " ++ arg_name ++ " = negative"),
       func_name ++ (": " ++ arg_name ++ " = very large")] else []) ++
    (if arg_type ∈ ["str", "string"] then
      [func_name ++ (": " ++ arg_name ++ " = empty string"),
       func_name ++ (": " ++ arg_name ++ " = very long string"),
       func_name ++ (": " ++ arg_name ++ " = special characters")] else []) ++
    (if arg_type ∈ ["list", "set", "dict", "List", "Set", "Dict", "Collection"] then
      [func_name ++ (": " ++ arg_name ++ " = empty collection"),
       func_name ++ (": " ++ arg_name ++ " = very large collection")] else [])) ++
  (match func.return_type with
   | none => []
   | some return_type =>
     if return_type = "" then [] else
     if return_type ∈ ["int", "float"] then
       [func_name ++ ": return zero",
        func_name ++ ": return negative value"] else []) ++
  (if func.complexity > 10 then
    [func_name ++ (": high complexity (" ++ toString func.complexity ++ ") - test thoroughly")]
   else []) ++
  (if func.has_varargs then
    [func_name ++ ": zero arguments passed to *args",
     func_name ++ ": many arguments passed to *args"] else []) ++
  (if func.has_kwargs then
    [func_name ++ ": empty kwargs",
     func_name ++ ": unexpected kwargs keys"] else []) ++
  (if func.is_async then
    [func_name ++ ": async function - test concurrent calls"] else [])

/-- Model of `EdgeCaseDetector._detect_class_edge_cases`. -/
def detect_class_edge_cases (cls : ClassRecord) : List String :=
  let class_name := cls.name
  [class_name ++ ": initialization with invalid parameters",
   class_name ++ ": initialization with None"] ++
  (cls.methods.flatMap fun method =>
    let method_name := method.name
    (if method_name = "__init__" then
      [class_name ++ ": create instance with no arguments",
       class_name ++ ": create instance with extra arguments"] else []) ++
    (if pyStartsWith method_name "__get" then
      [class_name ++ ": access non-existent attribute"] else []) ++
    (if method_name ∈ ["__str__", "__repr__"] then
      [class_name ++ ": string representation of edge case instances"] else []))

/-- The concatenated per-function and per-class findings of
`EdgeCaseDetector.detect` before its dedup loop. -/
def pre_detect (functions : List FunctionRecord) (classes : List ClassRecord) : List String :=
  functions.flatMap detect_function_edge_cases ++ classes.flatMap detect_class_edge_cases

/-- Model of `EdgeCaseDetector.detect`. -/
def detect (functions : List FunctionRecord) (classes : List ClassRecord) : List String :=
  dedupFS (pre_detect functions classes)

end EdgeCaseDetector

namespace FailureModeDetector

/-- Model of `FailureModeDetector._detect_function_failure_modes`. -/
def detect_function_failure_modes (func : FunctionRecord) : List String :=
  let func_name := func.name
  (if nameHasAny func_name ["get", "find", "search"] then
    [func_name ++ ": may return None without indication",
     func_name ++ ": may raise exception when not found"] else []) ++
  (if nameHasAny func_name ["parse", "load", "read"] then
    [func_name ++ ": may raise parsing error on invalid input",
     func_name ++ ": may not handle malformed data"] else []) ++
  (if nameHasAny func_name ["delete", "remove"] then
    [func_name ++ ": may fail silently on non-existent item",
     func_name ++ ": may raise exception when item not found"] else []) ++
  (if nameHasAny func_name ["validate", "check"] then
    [func_name ++ ": may have incomplete validation"] else []) ++
  (func.args.flatMap fun arg =>
    let arg_name := arg.name
    let arg_type := arg.anno.getD ""
    (if arg_type ∈ ["list", "List", "dict", "Dict", "set", "Set"] then
      [func_name ++ (": may not handle empty " ++ arg_name),
       func_name ++ (": may not handle None " ++ arg_name)] else []) ++
    (if arg_type ∈ ["int", "float", "str", "bool"] then
      [func_name ++ (": may not validate " ++ (arg_name ++ " type"))] else [])) ++
  (match func.return_type with
   | none => []
   | some return_type =>
     if return_type = "" then [] else
     (if pyIn "Optional" return_type || pyIn "None" return_type then
       [func_name ++ ": returns Optional - caller may not check for None"] else []) ++
     (if ["List", "Dict", "Set", "Tuple"].any (fun t => pyIn t return_type) then
       [func_name ++ ": may return empty collection"] else [])) ++
  (if func.is_async then
    [func_name ++ ": async function - potential race condition",
     func_name ++ ": async function - missing await points"] else []) ++
  (if pyIn "recursive" (pyLower func_name) || pyIn "recursion" (pyLower (func.body.getD "")) then
    [func_name ++ ": recursive function - stack overflow risk",
     func_name ++ ": recursive function - missing base case risk"] else []) ++
  (if func.complexity > 15 then
    [func_name ++
      (": high complexity (" ++ (toString func.complexity ++ ") - hard to test all paths"))]
   else []) ++
  (if func.has_varargs then
    [func_name ++ ": *args - may not validate number of arguments"] else []) ++
  (if func.has_kwargs then
    [func_name ++ ": **kwargs - may not validate unexpected keys"] else [])

/-- Model of `FailureModeDetector._detect_class_failure_modes`. -/
def detect_class_failure_modes (cls : ClassRecord) : List String :=
  let class_name := cls.name
  [class_name ++ ": __init__ may not validate constructor arguments"] ++
  (cls.methods.flatMap fun method =>
    let method_name := method.name
    (if method_name = "__init__" then
      [class_name ++ ": may not handle invalid initialization state",
       class_name ++ ": may not handle missing required fields"] else []) ++
    (if pyStartsWith method_name "__get" then
      [class_name ++ ": may raise AttributeError on missing attributes"] else []) ++
    (if pyStartsWith method_name "__set" then
      [class_name ++ ": may not validate assigned values"] else []) ++
    (if method_name = "__enter__" ∨ method_name = "__exit__" then
      [class_name ++ ": context manager - may not handle exceptions properly"] else []) ++
    (if method_name ∈ ["__str__", "__repr__"] then
      [class_name ++ ": may raise exception on malformed instance"] else []) ++
    (if pyStartsWith method_name "__eq__" ∨ pyStartsWith method_name "__cmp" then
      [class_name ++ ": comparison may not handle None or different types"] else []))

/-- The concatenated findings of `FailureModeDetector.detect` before dedup. -/
def pre_detect (functions : List FunctionRecord) (classes : List ClassRecord) : List String :=
  functions.flatMap detect_function_failure_modes ++ classes.flatMap detect_class_failure_modes

/-- Model of `FailureModeDetector.detect`. -/
def detect (functions : List FunctionRecord) (classes : List ClassRecord) : List String :=
  dedupFS (pre_detect functions classes)

end FailureModeDetector

/-! ### Unit test generator (the parts the claims exercise) -/

namespace UnitTestGenerator

/-- Model of `UnitTestGenerator._get_test_value_for_type`. -/
def get_test_value_for_type (type_hint : String) : String :=
  if pyIn "Optional[" type_hint then "None"
  else if pyIn "List[" type_hint then "[]"
  else if pyIn "Dict[" type_hint then "\x7b\x7d"
  else
    (([("int", "1"), ("float", "1.0"), ("str", "\"test\""), ("bool", "True"),
       ("list", "[]"), ("List", "[]"), ("dict", "\x7b\x7d"), ("Dict", "\x7b\x7d"),
       ("set", "set()"), ("Set", "set()"), ("tuple", "()"), ("Tuple", "()"),
       ("bytes", "b\"\""), ("bytearray", "bytearray()"),
       ("MemoryView", "memoryview(b\"\")"), ("None", "None"), ("Optional", "None"),
       ("Any", "None")] : List (String × String)).lookup type_hint).getD "None"

/-- Model of `UnitTestGenerator._generate_edge_case_tests`. -/
def generate_edge_case_tests (func : FunctionRecord) : List String :=
  let func_name := func.name
  let args := func.args
  (args.enum.flatMap fun (i, arg) =>
    let arg_type := arg.anno.getD ""
    let arg_name := arg.name
    ["def test_" ++ (func_name ++ ("_" ++ (arg_name ++ "_none():"))),
     "    # Test with None value"] ++
    (let test_inputs := args.enum.map fun (j, a) =>
        if j = i then "None" else get_test_value_for_type (a.anno.getD "")
     ["    # result = " ++ (func_name ++ ("(" ++ (commaJoin test_inputs ++ ")"))),
      "    # Add your assertion or expect error",
      ""]) ++
    (if arg_type ∈ ["list", "List", "str", "str", "dict", "Dict", "set", "Set"] then
      ["def test_" ++ (func_name ++ ("_" ++ (arg_name ++ "_empty():"))),
       "    # Test with empty " ++ arg_type] ++
      (let test_inputs := args.enum.map fun (j, a) =>
          if j = i then
            if arg_type ∈ ["list", "List"] then "[]"
            else if arg_type ∈ ["str", "str"] then "\"\""
            else if arg_type ∈ ["dict", "Dict"] then "\x7b\x7d"
            else if arg_type ∈ ["set", "Set"] then "set()"
            else get_test_value_for_type (a.anno.getD "")
          else get_test_value_for_type (a.anno.getD "")
       ["    # result = " ++ (func_name ++ ("(" ++ (commaJoin test_inputs ++ ")"))),
        "    # Add your assertion",
        ""])
     else []))

/-- Model of `UnitTestGenerator._generate_error_tests`. -/
def generate_error_tests (func : FunctionRecord) : List String :=
  let func_name := func.name
  ["def test_" ++ (func_name ++ "_raises_on_invalid_input():"),
   "    # Test that function raises appropriate exceptions",
   "    with pytest.raises((ValueError, TypeError)):",
   "        " ++ (func_name ++ "(invalid_input)"),
   ""]

/-- Model of `UnitTestGenerator._generate_function_test_cases`. -/
def generate_function_test_cases (func : FunctionRecord) : List String :=
  let func_name := func.name
  let args := func.args
  if pyStartsWith func_name "_" ∧ ¬ pyStartsWith func_name "__" then []
  else
    ["def test_" ++ (func_name ++ "_basic():")] ++
    (if args ≠ [] then
      let test_inputs := args.map fun arg => get_test_value_for_type (arg.anno.getD "")
      let call_args := commaJoin test_inputs
      ["    # Test " ++ (func_name ++ " with basic inputs"),
       "    result = " ++ (func_name ++ ("(" ++ (call_args ++ ")"))),
       "    assert result is not None  # Add your assertion"]
     else
      ["    # Test " ++ (func_name ++ " with no arguments"),
       "    result = " ++ (func_name ++ "()"),
       "    assert result is not None  # Add your assertion"]) ++
    [""] ++
    generate_edge_case_tests func ++
    generate_error_tests func

/-- The text of the `test_functions.py` file built by
`UnitTestGenerator._generate_function_tests` (the write to disk is outside the
model; the file content is this list of lines). -/
def generate_function_tests_content (functions : List FunctionRecord) : List String :=
  ["\"\"\"Unit tests for functions.\"\"\"", "", "import pytest",
   "from unittest.mock import Mock, patch", "", ""] ++
  functions.flatMap fun func => generate_function_test_cases func ++ [""]

end UnitTestGenerator

/-! ### Property-based test generator (the strategy table) -/

namespace PropertyBasedTestGenerator

/-- The `type_mapping` lookup at the end of `_get_strategy_for_type`. -/
def strategy_table_lookup (type_hint : String) : String :=
  (([("int", "st.integers(min_value=-1000, max_value=1000)"),
     ("float", "st.floats(min_value=-1000, max_value=1000, allow_nan=False, allow_infinity=False)"),
     ("str", "st.text(min_size=0, max_size=100)"),
     ("bool", "st.booleans()"),
     ("list", "st.lists(st.integers(), max_size=10)"),
     ("List", "st.lists(st.integers(), max_size=10)"),
     ("dict", "st.dictionaries(st.text(), st.integers(), max_size=10)"),
     ("Dict", "st.dictionaries(st.text(), st.integers(), max_size=10)"),
     ("set", "st.sets(st.integers(), max_size=10)"),
     ("Set", "st.sets(st.integers(), max_size=10)"),
     ("tuple", "st.tuples(st.integers(), st.integers())"),
     ("Tuple", "st.tuples(st.integers(), st.integers())"),
     ("bytes", "st.binary(min_size=0, max_size=100)"),
     ("bytearray", "st.binary(min_size=0, max_size=100)")] : List (String × String)).lookup
    type_hint).getD "st.none()"

/-- Model of `PropertyBasedTestGenerator._get_strategy_for_type`.  In the
`Union[` branch the source calls itself at the literal `"int"`; since `"int"`
contains neither `Optional[` nor `Union[`, that recursive call reduces to the
`type_mapping` lookup at `"int"`, which is how it is written here.  The
`arg_name` parameter is carried but (as in the source) never used. -/
def get_strategy_for_type (type_hint : String) (arg_name : String) : String :=
  let type_hint :=
    if pyIn "Optional[" type_hint then pyRstrip (pyReplace type_hint "Optional[" "") ']'
    else type_hint
  if pyIn "Union[" type_hint then
    "st.one_of(" ++ (strategy_table_lookup "int" ++ ", st.none())")
  else
    strategy_table_lookup type_hint

end PropertyBasedTestGenerator

/-! ### Integration test generator (external-service tests) -/

namespace IntegrationTestGenerator

/-- The `known_services` collection of `_identify_external_services` (a Python
set literal; only membership-style containment tests are performed on it, so a
list with the source's element order is an adequate model). -/
def known_services : List String :=
  ["requests", "urllib", "httpx", "aiohttp",
   "boto3", "botocore",
   "google", "google.cloud",
   "azure", "azure.storage",
   "pymongo", "redis", "sqlalchemy",
   "smtplib", "email",
   "stripe", "paypal",
   "twilio", "slack",
   "pusher", "socketio"]

/-- Model of `IntegrationTestGenerator._identify_external_services`.  The
source returns a Python `set`; the model returns a `Finset`, reflecting that
the iteration order of the result is not determined by its contents. -/
def identify_external_services (imports : List ImportRecord) : Finset String :=
  imports.foldl
    (fun external imp =>
      let module := imp.module
      if known_services.any (fun service => pyIn service (pyLower module)) then
        insert (pyFirstComponent module) external
      else external)
    ∅

/-- Model of `IntegrationTestGenerator._generate_external_service_test`. -/
def external_service_test_block (service : String) : List String :=
  ["def test_" ++ (service ++ "_integration():"),
   "    \"\"\"Test integration with " ++ (service ++ " service.\"\"\""),
   "    ",
   "    # Mock the external service",
   "    # with patch(\"" ++ (service ++ ("\") as mock_" ++ (service ++ ":"))),
   "    #     mock_" ++ (service ++ ".return_value = ..."),
   "    ",
   "    # Test the integration",
   "    # Add your assertions",
   "",
   "def test_" ++ (service ++ "_error_handling():"),
   "    \"\"\"Test " ++ (service ++ " error handling.\"\"\""),
   "    ",
   "    # Test error handling for " ++ (service ++ " failures"),
   "    # with patch(\"" ++ (service ++ ("\") as mock_" ++ (service ++ ":"))),
   "    #     mock_" ++ (service ++ ".side_effect = Exception(\"Service unavailable\")"),
   "    #     with pytest.raises(Exception):",
   "    #         call_your_function()",
   ""]

/-- `l` is a possible iteration order of the Python set modelled by `s`:
each element exactly once.  Which of these orders a CPython run produces
depends on string hash seeds, which vary between interpreter runs. -/
def set_iteration_order (l : List String) (s : Finset String) : Prop :=
  l.Nodup ∧ l.toFinset = s

/-- The text of `test_integration_external.py` built by
`_generate_external_service_tests`, as a function of the order in which the
service set happens to be iterated. -/
def external_tests_content (serviceOrder : List String) : List String :=
  ["\"\"\"Integration tests for external service interactions.\"\"\"", "",
   "import pytest", "from unittest.mock import Mock, patch, MagicMock", ""] ++
  serviceOrder.flatMap external_service_test_block

end IntegrationTestGenerator

/-! ### The orchestrator (`SmartTestGenerator.analyze_code`) -/

/-- The aggregate dict built by `analyze_code`.  The source also initialises a
`"complexity"` key that is never written again; it is omitted.  `diagnostics`
models the per-file `"Error analyzing ..."` warnings printed by the `except`
arm (the source prints them rather than storing them). -/
structure AnalysisResults where
  files : List String
  functions : List FunctionRecord
  classes : List ClassRecord
  imports : List ImportRecord
  edge_cases : List String
  failure_modes : List String
  diagnostics : List String
deriving DecidableEq, Repr

/-- One iteration of the file loop of `analyze_code`.  A file is a path
together with the outcome of `CodeParser.parse` on its text: `Except.error`
models the `SyntaxError` a malformed file raises, which the `except` arm
catches, turning it into a diagnostic and skipping the file. -/
def analyze_step (results : AnalysisResults) (file : String × Except String Node) :
    AnalysisResults :=
  match file.2 with
  | .ok tree =>
      let functions := extract_functions tree
      let classes := extract_classes tree
      let imports := extract_imports tree
      let edge_cases := EdgeCaseDetector.detect functions classes
      let failure_modes := FailureModeDetector.detect functions classes
      { results with
        files := results.files ++ [file.1]
        functions := results.functions ++ functions
        classes := results.classes ++ classes
        imports := results.imports ++ imports
        edge_cases := results.edge_cases ++ edge_cases
        failure_modes := results.failure_modes ++ failure_modes }
  | .error e =>
      { results with
        diagnostics := results.diagnostics ++ ["Error analyzing " ++ (file.1 ++ (": " ++ e))] }

/-- Model of `SmartTestGenerator.analyze_code` over a batch of already-read
files.  Parse failures are caught per file; the loop always completes and the
aggregate is returned (the run does not error). -/
def analyze_code (files : List (String × Except String Node)) : AnalysisResults :=
  files.foldl analyze_step ⟨[], [], [], [], [], [], []⟩

/-! ### Claim-side definitions and concrete inputs -/

/-- A branch construct in the sense of the specification's complexity rule:
an `if`/`while`/`for` statement or an exception-handler clause. -/
def isBranchNode : Node → Bool
  | .ifStmt _ _ _ => true
  | .whileStmt _ _ _ => true
  | .forStmt _ _ _ _ => true
  | .exceptHandler _ => true
  | _ => false

/-- The specification's per-node complexity credit for short-circuit boolean
operations: `v - 1` for a boolean operation of `v` operands, `0` otherwise. -/
def boolOpCredit : Node → Nat
  | .boolOpE _ values => values.length - 1
  | _ => 0

/-- The first position after `pat` in `l`, when `pat` occurs. -/
def afterFirst (pat : List Char) : List Char → Option (List Char)
  | [] => if pat.isEmpty then some [] else none
  | c :: cs => if pat.isPrefixOf (c :: cs) then some ((c :: cs).drop pat.length) else afterFirst pat cs

/-- Modelled from the spec's words for the claim about `Union[...]` strategies:
the Union's first member type is the text between `Union[` and the first
following comma (or closing bracket). -/
def spec_union_first_member (s : String) : String :=
  match afterFirst "Union[".data s.data with
  | some rest => ⟨rest.takeWhile fun c => !(c == ',') && !(c == ']')⟩
  | none => ""

/-- Modelled from the spec's words: the two-way strategy choosing between the
strategy of the Union's first member type and the null strategy. -/
def spec_union_choice_strategy (anno : String) : String :=
  "st.one_of(" ++
    (PropertyBasedTestGenerator.strategy_table_lookup (spec_union_first_member anno) ++
      ", st.none())")

/-- The terminal identifier of a decorator expression in the sense of the
classification claim: the identifier of a bare name, the attribute of an
attribute expression, or the same through one call wrapper. -/
def decorator_terminal_id : Node → Option String
  | .nameE id => some id
  | .attributeE _ attr => some attr
  | .callE (.nameE id) _ => some id
  | .callE (.attributeE _ attr) _ => some attr
  | _ => none

/-- The reading `method.get('is_static') or method.get('is_classmethod')`
performed by `UnitTestGenerator._generate_method_tests` on a method record:
absent keys read as `None`, which is falsy. -/
def method_routed_through_type (method : FunctionRecord) : Bool :=
  method.is_static.getD false || method.is_classmethod.getD false

/-- The `def divide(a: int, b: int) -> float` node of Scenario A, as parsed
(`lineno` 1, a `pass`-equivalent body; the body is irrelevant to the claim). -/
def divideNode : Node :=
  .functionDef "divide"
    [.argNode "a" (some (.nameE "int")), .argNode "b" (some (.nameE "int"))]
    none none [] [.passStmt] [] (some (.nameE "float")) 1

/-- A one-function source file defining only `divide`. -/
def divideModule : Node := .module [divideNode]

/-- A function record named `recursive_step` as the pipeline extractor
produces it: no `body` key is ever written, and the body of the underlying
source function need not mention recursion at all. -/
def recursiveStepRecord : FunctionRecord :=
  { name := "recursive_step", args := [], return_type := none, decorators := [],
    docstring := none, line_number := 1, complexity := 1, is_async := false,
    has_varargs := false, has_kwargs := false, has_defaults := false }

/-- A method node decorated with a bare `@staticmethod`. -/
def staticHelperNode : Node :=
  .functionDef "helper" [.argNode "x" (some (.nameE "int"))] none none [] [.passStmt]
    [.nameE "staticmethod"] none 3

/-- A class with the `@staticmethod`-decorated method above in its body. -/
def staticHelperClass : Node := .classDef "Tools" [] [staticHelperNode] 2

/-- A module containing the class above. -/
def staticHelperModule : Node := .module [staticHelperClass]

/-- A module importing `requests` and `redis`, two of the recognised
external-service modules. -/
def twoServicesModule : Node :=
  .module [.importStmt [("requests", none)], .importStmt [("redis", none)]]

/-! ### Lemmas about the string primitives -/

theorem isSubL_iff (pat l : List Char) : isSubL pat l = true ↔ pat <:+: l := by
  induction l with
  | nil =>
      simp [isSubL, List.isEmpty_iff]
  | cons c cs ih =>
      simp only [isSubL, Bool.or_eq_true, ih, List.infix_cons_iff,
        List.isPrefixOf_iff_prefix]

theorem pyIn_iff (needle hay : String) :
    pyIn needle hay = true ↔ needle.data <:+: hay.data := isSubL_iff _ _

/-! ### Lemmas about the dedup loop -/

theorem mem_dedupAux (l : List String) :
    ∀ (seen : List String) (a : String), a ∈ dedupAux seen l ↔ (a ∈ l ∧ a ∉ seen) := by
  induction l with
  | nil => intro seen a; simp [dedupAux]
  | cons c cs ih =>
      intro seen a
      by_cases hc : c ∈ seen
      · rw [dedupAux, if_pos hc, ih]
        constructor
        · rintro ⟨h1, h2⟩; exact ⟨List.mem_cons_of_mem _ h1, h2⟩
        · rintro ⟨h1, h2⟩
          rcases List.mem_cons.mp h1 with rfl | h1
          · exact absurd hc h2
          · exact ⟨h1, h2⟩
      · rw [dedupAux, if_neg hc]
        constructor
        · intro h
          rcases List.mem_cons.mp h with rfl | h
          · exact ⟨List.mem_cons_self _ _, hc⟩
          · rcases (ih _ _).mp h with ⟨h1, h2⟩
            exact ⟨List.mem_cons_of_mem _ h1,
              fun hs => h2 (List.mem_cons_of_mem _ hs)⟩
        · rintro ⟨h1, h2⟩
          rcases List.mem_cons.mp h1 with rfl | h1
          · exact List.mem_cons_self _ _
          · by_cases hac : a = c
            · subst hac; exact List.mem_cons_self _ _
            · exact List.mem_cons_of_mem _
                ((ih _ _).mpr ⟨h1, fun hs => by
                  rcases List.mem_cons.mp hs with h | h
                  · exact hac h
                  · exact h2 h⟩)

theorem mem_dedupFS (l : List String) (a : String) : a ∈ dedupFS l ↔ a ∈ l := by
  rw [dedupFS, mem_dedupAux]
  simp

theorem pairwise_indexOf_dedupAux (l : List String) :
    ∀ seen : List String,
      (dedupAux seen l).Pairwise fun a b => l.indexOf a < l.indexOf b := by
  induction l with
  | nil => intro seen; simp [dedupAux]
  | cons c cs ih =>
      intro seen
      by_cases hc : c ∈ seen
      · rw [dedupAux, if_pos hc]
        refine List.Pairwise.imp_of_mem ?_ (ih seen)
        intro a b ha hb hab
        have ha' := (mem_dedupAux cs seen a).mp ha
        have hb' := (mem_dedupAux cs seen b).mp hb
        have hac : c ≠ a := fun h => ha'.2 (h ▸ hc)
        have hbc : c ≠ b := fun h => hb'.2 (h ▸ hc)
        rw [List.indexOf_cons_ne cs hac, List.indexOf_cons_ne cs hbc]
        omega
      · rw [dedupAux, if_neg hc]
        rw [List.pairwise_cons]
        constructor
        · intro b hb
          have hb' := (mem_dedupAux cs (c :: seen) b).mp hb
          have hbc : c ≠ b := fun h => hb'.2 (h ▸ List.mem_cons_self _ _)
          rw [List.indexOf_cons_self, List.indexOf_cons_ne cs hbc]
          omega
        · refine List.Pairwise.imp_of_mem ?_ (ih (c :: seen))
          intro a b ha hb hab
          have ha' := (mem_dedupAux cs (c :: seen) a).mp ha
          have hb' := (mem_dedupAux cs (c :: seen) b).mp hb
          have hac : c ≠ a := fun h => ha'.2 (h ▸ List.mem_cons_self _ _)
          have hbc : c ≠ b := fun h => hb'.2 (h ▸ List.mem_cons_self _ _)
          rw [List.indexOf_cons_ne cs hac, List.indexOf_cons_ne cs hbc]
          omega

theorem nodup_dedupFS (l : List String) : (dedupFS l).Nodup := by
  refine List.Pairwise.imp ?_ (pairwise_indexOf_dedupAux l [])
  intro a b h
  intro hab
  subst hab
  omega

theorem pairwise_indexOf_dedupFS (l : List String) :
    (dedupFS l).Pairwise fun a b => l.indexOf a < l.indexOf b :=
  pairwise_indexOf_dedupAux l []

/-! ### Characterisation of the orchestrator's aggregation -/

/-- Per-file contribution to `analysis_results["files"]`. -/
def file_names_of : String × Except String Node → List String
  | (p, .ok _) => [p]
  | (_, .error _) => []

/-- Per-file contribution to the aggregated functions list. -/
def file_functions_of : String × Except String Node → List FunctionRecord
  | (_, .ok t) => extract_functions t
  | (_, .error _) => []

/-- Per-file contribution to the aggregated classes list. -/
def file_classes_of : String × Except String Node → List ClassRecord
  | (_, .ok t) => extract_classes t
  | (_, .error _) => []

/-- Per-file contribution to the aggregated imports list. -/
def file_imports_of : String × Except String Node → List ImportRecord
  | (_, .ok t) => extract_imports t
  | (_, .error _) => []

/-- Per-file contribution to the aggregated edge-case list. -/
def file_edge_cases_of : String × Except String Node → List String
  | (_, .ok t) => EdgeCaseDetector.detect (extract_functions t) (extract_classes t)
  | (_, .error _) => []

/-- Per-file contribution to the aggregated failure-mode list. -/
def file_failure_modes_of : String × Except String Node → List String
  | (_, .ok t) => FailureModeDetector.detect (extract_functions t) (extract_classes t)
  | (_, .error _) => []

/-- Per-file contribution to the skipped-file diagnostics. -/
def file_diagnostics_of : String × Except String Node → List String
  | (_, .ok _) => []
  | (p, .error e) => ["Error analyzing " ++ (p ++ (": " ++ e))]

theorem foldl_analyze_step (files : List (String × Except String Node)) :
    ∀ acc : AnalysisResults,
      files.foldl analyze_step acc =
        { files := acc.files ++ files.flatMap file_names_of
          functions := acc.functions ++ files.flatMap file_functions_of
          classes := acc.classes ++ files.flatMap file_classes_of
          imports := acc.imports ++ files.flatMap file_imports_of
          edge_cases := acc.edge_cases ++ files.flatMap file_edge_cases_of
          failure_modes := acc.failure_modes ++ files.flatMap file_failure_modes_of
          diagnostics := acc.diagnostics ++ files.flatMap file_diagnostics_of } := by
  induction files with
  | nil => intro acc; simp
  | cons f fs ih =>
      intro acc
      rw [List.foldl_cons, ih]
      rcases f with ⟨p, pr⟩
      cases pr <;>
        simp [analyze_step, file_names_of, file_functions_of, file_classes_of,
          file_imports_of, file_edge_cases_of, file_failure_modes_of,
          file_diagnostics_of]

theorem analyze_code_eq (files : List (String × Except String Node)) :
    analyze_code files =
      { files := files.flatMap file_names_of
        functions := files.flatMap file_functions_of
        classes := files.flatMap file_classes_of
        imports := files.flatMap file_imports_of
        edge_cases := files.flatMap file_edge_cases_of
        failure_modes := files.flatMap file_failure_modes_of
        diagnostics := files.flatMap file_diagnostics_of } := by
  rw [analyze_code, foldl_analyze_step]
  simp

/-! ### The complexity accumulation as an arithmetic formula -/

theorem foldl_complexity (l : List Node) :
    ∀ c : Nat,
      l.foldl
        (fun complexity child =>
          match child with
          | .ifStmt _ _ _ => complexity + 1
          | .whileStmt _ _ _ => complexity + 1
          | .forStmt _ _ _ _ => complexity + 1
          | .exceptHandler _ => complexity + 1
          | .boolOpE _ values => complexity + (values.length - 1)
          | _ => complexity)
        c =
      c + l.countP isBranchNode + (l.map boolOpCredit).sum := by
  induction l with
  | nil => intro c; simp
  | cons a l ih =>
      intro c
      rw [List.foldl_cons, ih]
      cases a <;>
        simp [isBranchNode, boolOpCredit, List.countP_cons] <;>
        omega

theorem calculate_complexity_eq (n : Node) :
    calculate_complexity n =
      1 + (walk n).countP isBranchNode + ((walk n).map boolOpCredit).sum := by
  rw [calculate_complexity, foldl_complexity]

/-! ### String-inequality helpers for interpolated findings -/

theorem append_ne_of_data_ne (n s t : String) (h : s.data ≠ t.data) : n ++ s ≠ n ++ t := by
  intro he
  apply h
  have hd := congrArg String.data he
  rw [String.data_append, String.data_append] at hd
  exact List.append_cancel_left hd

theorem data_ne_of_take_ne (a b : List Char) (k : Nat) (h : a.take k ≠ b.take k) : a ≠ b :=
  fun he => h (by rw [he])

/-- Findings with distinct fixed suffixes are distinct: five characters after
the subject name suffice to tell the templates apart. -/
theorem ne_lit_lit (n s t : String) (h : s.data.take 5 ≠ t.data.take 5) :
    n ++ s ≠ n ++ t :=
  append_ne_of_data_ne n s t (data_ne_of_take_ne _ _ 5 h)

/-- Distinctness when the right template carries a trailing interpolation. -/
theorem ne_lit_cat (n s lit rest : String) (h5 : 5 ≤ lit.data.length)
    (h : s.data.take 5 ≠ lit.data.take 5) : n ++ s ≠ n ++ (lit ++ rest) := by
  apply append_ne_of_data_ne
  intro he
  apply h
  rw [he, String.data_append, List.take_append_of_le_length h5]

/-! ### Infix preservation through `replace`/`rstrip`

These lemmas support the corrected `Union[...]` claim: deleting `Optional[`
occurrences and stripping trailing `]` characters cannot destroy a `Union[`
occurrence. -/

theorem suffix_cond_of_tails (a b : List Char) (h : ∀ s ∈ a.tails, s = [] ∨ ¬ s <+: b) :
    ∀ s, s <:+ a → s ≠ [] → ¬ s <+: b := by
  intro s hs hne
  rcases h s ((List.mem_tails _ _).mpr hs) with h1 | h1
  · exact absurd h1 hne
  · exact h1

theorem infix_of_infix_append (needle : List Char) :
    ∀ pat : List Char, ¬ needle <:+: pat →
      (∀ s, s <:+ pat → s ≠ [] → ¬ s <+: needle) →
      ∀ rest : List Char, needle <:+: pat ++ rest → needle <:+: rest := by
  intro pat
  induction pat with
  | nil => intro _ _ rest h; simpa using h
  | cons p pat' ih =>
      intro h3 h4 rest h
      rw [List.cons_append] at h
      rcases List.infix_cons_iff.mp h with hpre | hinf
      · exfalso
        rw [← List.cons_append] at hpre
        have hp : (p :: pat') <+: (p :: pat') ++ rest := List.prefix_append _ _
        rcases List.prefix_or_prefix_of_prefix hpre hp with h' | h'
        · exact h3 h'.isInfix
        · exact h4 (p :: pat') (List.suffix_refl _) (by simp) h'
      · refine ih ?_ ?_ rest hinf
        · intro hinf'
          exact h3 (hinf'.trans (List.infix_cons (List.infix_refl _)))
        · intro s hs hne
          exact h4 s (hs.trans (List.suffix_cons p pat')) hne

theorem prefix_replaceL (U pat : List Char)
    (c1 : ∀ s, s <:+ U → s ≠ [] → ¬ s <+: pat)
    (c2 : ¬ pat <:+: U) :
    ∀ (fuel : Nat) (l n : List Char), l.length ≤ fuel → n ≠ [] → n <:+ U → n <+: l →
      n <+: replaceL pat [] fuel l := by
  intro fuel
  induction fuel with
  | zero =>
      intro l n hl hn _ hpre
      have : l = [] := List.length_eq_zero.mp (Nat.le_zero.mp hl)
      subst this
      exact absurd (List.prefix_nil.mp hpre) hn
  | succ fuel ih =>
      intro l n hl hn hsuf hpre
      cases l with
      | nil => exact absurd (List.prefix_nil.mp hpre) hn
      | cons c cs =>
          by_cases hm : pat.isPrefixOf (c :: cs) = true
          · exfalso
            have hpp : pat <+: c :: cs := List.isPrefixOf_iff_prefix.mp hm
            rcases List.prefix_or_prefix_of_prefix hpre hpp with h' | h'
            · exact c1 n hsuf hn h'
            · exact c2 (List.IsInfix.trans h'.isInfix hsuf.isInfix)
          · rw [replaceL, if_neg (by simp [hm])]
            cases n with
            | nil => exact absurd rfl hn
            | cons n0 n' =>
                rcases List.cons_prefix_cons.mp hpre with ⟨rfl, hn'⟩
                refine List.cons_prefix_cons.mpr ⟨rfl, ?_⟩
                by_cases hn'e : n' = []
                · subst hn'e; exact List.nil_prefix
                · refine ih cs n' ?_ hn'e ?_ hn'
                  · simpa using hl
                  · exact (List.suffix_cons n0 n').trans hsuf

theorem infix_replaceL (U pat : List Char) (hU : U ≠ []) (hpat : pat ≠ [])
    (c1 : ∀ s, s <:+ U → s ≠ [] → ¬ s <+: pat)
    (c2 : ¬ pat <:+: U)
    (c3 : ¬ U <:+: pat)
    (c4 : ∀ s, s <:+ pat → s ≠ [] → ¬ s <+: U) :
    ∀ (fuel : Nat) (l : List Char), l.length ≤ fuel → U <:+: l →
      U <:+: replaceL pat [] fuel l := by
  intro fuel
  induction fuel with
  | zero =>
      intro l hl hinf
      have : l = [] := List.length_eq_zero.mp (Nat.le_zero.mp hl)
      subst this
      exact absurd (List.infix_nil.mp hinf) hU
  | succ fuel ih =>
      intro l hl hinf
      cases l with
      | nil => exact absurd (List.infix_nil.mp hinf) hU
      | cons c cs =>
          by_cases hm : pat.isPrefixOf (c :: cs) = true
          · have hpp : pat <+: c :: cs := List.isPrefixOf_iff_prefix.mp hm
            obtain ⟨t, ht⟩ := hpp
            rw [replaceL, if_pos ⟨hpat, hm⟩, List.nil_append]
            have hdrop : (c :: cs).drop pat.length = t := by
              rw [← ht, List.drop_left]
            rw [hdrop]
            have hrest : U <:+: t := by
              refine infix_of_infix_append U pat c3 c4 t ?_
              rw [ht]; exact hinf
            refine ih t ?_ hrest
            have hlen := congrArg List.length ht
            rw [List.length_append] at hlen
            have hp1 : 1 ≤ pat.length := List.length_pos.mpr hpat
            simp only [List.length_cons] at hl hlen
            omega
          · rcases List.infix_cons_iff.mp hinf with hpre | hinf'
            · exact (prefix_replaceL U pat c1 c2 (fuel + 1) (c :: cs) U hl hU
                (List.suffix_refl U) hpre).isInfix
            · rw [replaceL, if_neg (by simp [hm])]
              refine List.infix_cons ?_
              refine ih cs ?_ hinf'
              simpa using hl

theorem infix_of_infix_snoc (needle : List Char) (c : Char) (hc : c ∉ needle) (xs : List Char) :
    needle <:+: xs ++ [c] → needle <:+: xs := by
  intro h
  cases hn : needle with
  | nil => exact List.nil_infix
  | cons d ds =>
      subst hn
      rw [← List.reverse_infix, List.reverse_append] at h
      simp only [List.reverse_cons, List.reverse_nil, List.nil_append,
        List.singleton_append] at h
      rcases List.infix_cons_iff.mp h with hpre | hinf
      · exfalso
        rcases hr : ds.reverse with _ | ⟨e, es⟩
        · rw [hr, List.nil_append] at hpre
          rcases List.cons_prefix_cons.mp hpre with ⟨rfl, _⟩
          exact hc (List.mem_cons_self _ _)
        · rw [hr, List.cons_append] at hpre
          rcases List.cons_prefix_cons.mp hpre with ⟨rfl, _⟩
          apply hc
          refine List.mem_cons_of_mem _ ?_
          rw [← List.mem_reverse, hr]
          exact List.mem_cons_self _ _
      · rw [← List.reverse_infix]
        simpa using hinf

theorem infix_strip_all (needle : List Char) (c : Char) (hc : c ∉ needle) :
    ∀ t xs : List Char, (∀ d ∈ t, d = c) → needle <:+: xs ++ t → needle <:+: xs := by
  intro t
  induction t using List.reverseRecOn with
  | nil => intro xs _ h; simpa using h
  | append_singleton t' d ih =>
      intro xs hall h
      have hd : d = c := hall d (by simp)
      rw [hd] at h
      rw [← List.append_assoc] at h
      exact ih xs (fun e he => hall e (by simp [he]))
        (infix_of_infix_snoc needle c hc (xs ++ t') h)

theorem rstrip_decomp (s : String) (c : Char) :
    ∃ t, s.data = (pyRstrip s c).data ++ t ∧ ∀ d ∈ t, d = c := by
  refine ⟨(s.data.reverse.takeWhile (· == c)).reverse, ?_, ?_⟩
  · have hsplit :
        (s.data.reverse.takeWhile (· == c)) ++ (s.data.reverse.dropWhile (· == c)) =
          s.data.reverse := by
      simp [List.takeWhile_append_dropWhile]
    conv_lhs => rw [← List.reverse_reverse s.data, ← hsplit]
    rw [List.reverse_append]
    rfl
  · intro d hd
    rw [List.mem_reverse] at hd
    have := List.mem_takeWhile_imp hd
    exact eq_of_beq this

theorem union_survives_strip (th : String) (h : pyIn "Union[" th = true) :
    pyIn "Union[" (pyRstrip (pyReplace th "Optional[" "") ']') = true := by
  rw [pyIn_iff] at h ⊢
  have h2 : "Union[".data <:+: (pyReplace th "Optional[" "").data := by
    show "Union[".data <:+: replaceL "Optional[".data [] th.data.length th.data
    exact infix_replaceL "Union[".data "Optional[".data (by decide) (by decide)
      (suffix_cond_of_tails _ _ (by decide)) (by decide) (by decide)
      (suffix_cond_of_tails _ _ (by decide)) th.data.length th.data (le_refl _) h
  obtain ⟨t, ht, hall⟩ := rstrip_decomp (pyReplace th "Optional[" "") ']'
  rw [ht] at h2
  exact infix_strip_all "Union[".data ']' (by decide) t _ hall h2

/-! ### Claim theorems -/

/-- C1: for every function definition in parsed source, the extracted
cyclomatic complexity equals 1 plus the number of if/while/for statements and
exception-handler clauses in the function's subtree, plus, for every
short-circuit boolean operation of `v` operands in that subtree, `v - 1`.
Both function-definition kinds are covered; `extract_functions` builds its
records by `extract_function_info`, which leaves the complexity field of the
async massage unchanged. -/
theorem C1_extracted_complexity_formula :
    ∀ (nm : String) (args : List Node) (va kw : Option Node) (defs body decos : List Node)
      (ret : Option Node) (ln : Nat),
      (extract_function_info (.functionDef nm args va kw defs body decos ret ln)).complexity =
        1 + (walk (.functionDef nm args va kw defs body decos ret ln)).countP isBranchNode +
          ((walk (.functionDef nm args va kw defs body decos ret ln)).map boolOpCredit).sum ∧
      (extract_function_info (.asyncFunctionDef nm args va kw defs body decos ret ln)).complexity =
        1 + (walk (.asyncFunctionDef nm args va kw defs body decos ret ln)).countP isBranchNode +
          ((walk (.asyncFunctionDef nm args va kw defs body decos ret ln)).map boolOpCredit).sum := by
  intro nm args va kw defs body decos ret ln
  exact ⟨calculate_complexity_eq _, calculate_complexity_eq _⟩

/-- C2: the claim asserts byte-identical output across runs, but the external
service set is a Python `set` iterated directly when emitting test text.  On
the module importing `requests` and `redis`, both orders are valid iterations
of the identified service set, and they yield different file text, so output
bytes depend on the interpreter's hash seed. -/
theorem C2_external_service_order_nondeterminism :
    extract_imports twoServicesModule =
      [⟨"requests", "requests", "import"⟩, ⟨"redis", "redis", "import"⟩] ∧
    IntegrationTestGenerator.set_iteration_order ["requests", "redis"]
      (IntegrationTestGenerator.identify_external_services (extract_imports twoServicesModule)) ∧
    IntegrationTestGenerator.set_iteration_order ["redis", "requests"]
      (IntegrationTestGenerator.identify_external_services (extract_imports twoServicesModule)) ∧
    IntegrationTestGenerator.external_tests_content ["requests", "redis"] ≠
      IntegrationTestGenerator.external_tests_content ["redis", "requests"] := by
  refine ⟨by decide, ⟨by decide, by decide⟩, ⟨by decide, by decide⟩, by decide⟩

/-- C3: for every input list of function records and class records, the lists
returned by `EdgeCaseDetector.detect` and `FailureModeDetector.detect` contain
no two textually identical entries, have exactly the members of the
pre-deduplication detection sequence, and list them in the order of their
first occurrence in that sequence (pairwise increasing first-occurrence
index). -/
theorem C3_detector_dedup_invariant :
    ∀ (functions : List FunctionRecord) (classes : List ClassRecord),
      ((EdgeCaseDetector.detect functions classes).Nodup ∧
        (∀ a, a ∈ EdgeCaseDetector.detect functions classes ↔
          a ∈ EdgeCaseDetector.pre_detect functions classes) ∧
        (EdgeCaseDetector.detect functions classes).Pairwise fun a b =>
          (EdgeCaseDetector.pre_detect functions classes).indexOf a <
            (EdgeCaseDetector.pre_detect functions classes).indexOf b) ∧
      ((FailureModeDetector.detect functions classes).Nodup ∧
        (∀ a, a ∈ FailureModeDetector.detect functions classes ↔
          a ∈ FailureModeDetector.pre_detect functions classes) ∧
        (FailureModeDetector.detect functions classes).Pairwise fun a b =>
          (FailureModeDetector.pre_detect functions classes).indexOf a <
            (FailureModeDetector.pre_detect functions classes).indexOf b) := by
  intro functions classes
  exact ⟨⟨nodup_dedupFS _, fun a => mem_dedupFS _ a, pairwise_indexOf_dedupFS _⟩,
    ⟨nodup_dedupFS _, fun a => mem_dedupFS _ a, pairwise_indexOf_dedupFS _⟩⟩

/-- C4 counterexample: two files that both define `divide` make the aggregated
edge-case list of the run contain duplicates, so uniqueness is not enforced
across the whole run. -/
theorem C4_counterexample_cross_file_duplicates :
    ¬ (analyze_code [("a.py", .ok divideModule),
        ("b.py", .ok divideModule)]).edge_cases.Nodup := by
  decide

/-- C4 (amended): the aggregated edge-case and failure-mode lists are the
concatenations of the per-file detector outputs; deduplication in first-seen
order happens within each file's detector call only, so the aggregate may
repeat findings across files. -/
theorem C4_amended_per_file_dedup :
    ∀ files : List (String × Except String Node),
      (analyze_code files).edge_cases = files.flatMap file_edge_cases_of ∧
      (analyze_code files).failure_modes = files.flatMap file_failure_modes_of ∧
      (∀ f ∈ files, (file_edge_cases_of f).Nodup ∧ (file_failure_modes_of f).Nodup) := by
  intro files
  refine ⟨?_, ?_, ?_⟩
  · rw [analyze_code_eq]
  · rw [analyze_code_eq]
  · intro f hf
    rcases f with ⟨p, pr⟩
    cases pr with
    | ok t => exact ⟨nodup_dedupFS _, nodup_dedupFS _⟩
    | error e =>
        constructor <;> simp [file_edge_cases_of, file_failure_modes_of]

/-- Witness for the amended C4 at a concrete one-file batch. -/
theorem C4_amended_per_file_dedup_witness :
    (file_edge_cases_of ("a.py", Except.ok divideModule)).Nodup ∧
    (file_failure_modes_of ("a.py", Except.ok divideModule)).Nodup :=
  (C4_amended_per_file_dedup [("a.py", Except.ok divideModule)]).2.2
    ("a.py", Except.ok divideModule) (List.mem_singleton.mpr rfl)

/-- C8: on source defining `def divide(a: int, b: int) -> float`, the
edge-case detector reports division by zero and integer overflow in division,
and the unit generator's function-test file contains a basic test whose call
is `divide(1, 1)`. -/
theorem C8_scenario_divide :
    "divide: division by zero" ∈
      EdgeCaseDetector.detect (extract_functions divideModule) (extract_classes divideModule) ∧
    "divide: integer overflow in division" ∈
      EdgeCaseDetector.detect (extract_functions divideModule) (extract_classes divideModule) ∧
    "def test_divide_basic():" ∈
      UnitTestGenerator.generate_function_tests_content (extract_functions divideModule) ∧
    "    result = divide(1, 1)" ∈
      UnitTestGenerator.generate_function_tests_content (extract_functions divideModule) := by
  refine ⟨by decide, by decide, by decide, by decide⟩

/-- C9: when the middle file of a three-file batch fails to parse, the run
still analyzes the other two files (their functions, classes, imports and
findings all appear in the aggregate), reports exactly one skipped-file
diagnostic for the malformed file, and returns the aggregate normally rather
than erroring (the parse failure is caught inside the loop). -/
theorem C9_malformed_file_skipped :
    ∀ (p1 p2 p3 : String) (t1 t3 : Node) (msg : String),
      analyze_code [(p1, .ok t1), (p2, .error msg), (p3, .ok t3)] =
        { files := [p1, p3]
          functions := extract_functions t1 ++ extract_functions t3
          classes := extract_classes t1 ++ extract_classes t3
          imports := extract_imports t1 ++ extract_imports t3
          edge_cases := EdgeCaseDetector.detect (extract_functions t1) (extract_classes t1) ++
            EdgeCaseDetector.detect (extract_functions t3) (extract_classes t3)
          failure_modes := FailureModeDetector.detect (extract_functions t1) (extract_classes t1) ++
            FailureModeDetector.detect (extract_functions t3) (extract_classes t3)
          diagnostics := ["Error analyzing " ++ (p2 ++ (": " ++ msg))] } := by
  intro p1 p2 p3 t1 t3 msg
  rw [analyze_code_eq]
  simp [file_names_of, file_functions_of, file_classes_of, file_imports_of,
    file_edge_cases_of, file_failure_modes_of, file_diagnostics_of]

/-- C10: every function definition anywhere in the walked tree yields a record
in `extract_functions`, and every method of a class found in the tree appears
both in that class record's methods list and in the top-level functions
list. -/
theorem C10_every_function_def_recorded :
    ∀ (tree m : Node), m ∈ walk tree →
      (∀ r, function_record_of m = some r → r ∈ extract_functions tree) ∧
      (∀ nm bases body ln, m = .classDef nm bases body ln →
        ∀ item ∈ body, ∀ r, function_record_of item = some r →
          r ∈ (extract_class_info m).methods ∧ r ∈ extract_functions tree) := by
  intro tree m hm
  constructor
  · intro r hr
    exact List.mem_filterMap.mpr ⟨m, hm, hr⟩
  · rintro nm bases body ln rfl item hitem r hr
    refine ⟨?_, ?_⟩
    · show r ∈ (extract_class_info (.classDef nm bases body ln)).methods
      simp only [extract_class_info]
      exact List.mem_filterMap.mpr ⟨item, hitem, hr⟩
    · have hitem_walk : item ∈ walk tree := by
        refine mem_walk_trans hm ?_
        refine mem_walk.mpr (Reaches.step ?_ (Reaches.refl item))
        show item ∈ children (.classDef nm bases body ln)
        simp [children, hitem]
      exact List.mem_filterMap.mpr ⟨item, hitem_walk, hr⟩

/-- Witness for C10 at the concrete one-class module. -/
theorem C10_every_function_def_recorded_witness :
    extract_function_info staticHelperNode ∈
      (extract_class_info staticHelperClass).methods ∧
    extract_function_info staticHelperNode ∈ extract_functions staticHelperModule := by
  have hclass : staticHelperClass ∈ walk staticHelperModule := by
    rw [walk_eq_walkQ, mem_walkQ]
    refine ⟨staticHelperModule, List.mem_singleton.mpr rfl, ?_⟩
    refine Reaches.step ?_ (Reaches.refl _)
    show staticHelperClass ∈ children staticHelperModule
    exact List.mem_singleton.mpr rfl
  exact (C10_every_function_def_recorded staticHelperModule staticHelperClass hclass).2
    "Tools" [] [staticHelperNode] 2 rfl staticHelperNode (List.mem_singleton.mpr rfl)
    (extract_function_info staticHelperNode) rfl

/-- C7 counterexample: a method carrying the bare decorator `@staticmethod`
(terminal identifier `staticmethod`) yields a pipeline extractor record with
no `is_static`/`is_classmethod` keys, so the consumer's check reads it as not
static and not a class method. -/
theorem C7_counterexample_pipeline_record_not_classified :
    decorator_terminal_id (.nameE "staticmethod") = some "staticmethod" ∧
    (Node.nameE "staticmethod") ∈ decorator_list_of staticHelperNode ∧
    method_routed_through_type (extract_function_info staticHelperNode) = false ∧
    (extract_function_info staticHelperNode).is_static = none ∧
    (extract_function_info staticHelperNode).is_classmethod = none :=
  ⟨rfl, List.mem_singleton.mpr rfl, by decide, by decide, by decide⟩

/-- C7 (amended): `CodeParser._has_decorator` does recognise a decorator by
its terminal identifier in bare-name, attribute and call form; but the
structural extractor used in the pipeline (`ASTAnalyzer`) never writes
`is_static`/`is_classmethod` keys, so pipeline method records never classify a
method as a static or class method. -/
theorem C7_amended_has_decorator_vs_pipeline_record :
    (∀ (node d : Node) (nm : String), d ∈ decorator_list_of node →
      decorator_terminal_id d = some nm → has_decorator node nm = true) ∧
    (∀ node : Node, (extract_function_info node).is_static = none ∧
      (extract_function_info node).is_classmethod = none) := by
  constructor
  · intro node d nm hd hid
    rw [has_decorator]
    refine List.any_eq_true.mpr ⟨d, hd, ?_⟩
    cases d with
    | nameE id =>
        simp only [decorator_terminal_id, Option.some.injEq] at hid
        simp [hid]
    | attributeE v attr =>
        simp only [decorator_terminal_id, Option.some.injEq] at hid
        simp [hid]
    | callE f args =>
        cases f with
        | nameE id =>
            simp only [decorator_terminal_id, Option.some.injEq] at hid
            simp [hid]
        | attributeE v attr =>
            simp only [decorator_terminal_id, Option.some.injEq] at hid
            simp [hid]
        | callE a b => simp [decorator_terminal_id] at hid
        | module b => simp [decorator_terminal_id] at hid
        | functionDef a b c d e f g h i => simp [decorator_terminal_id] at hid
        | asyncFunctionDef a b c d e f g h i => simp [decorator_terminal_id] at hid
        | classDef a b c d => simp [decorator_terminal_id] at hid
        | ifStmt a b c => simp [decorator_terminal_id] at hid
        | whileStmt a b c => simp [decorator_terminal_id] at hid
        | forStmt a b c d => simp [decorator_terminal_id] at hid
        | tryStmt a b c d => simp [decorator_terminal_id] at hid
        | exceptHandler a => simp [decorator_terminal_id] at hid
        | returnStmt a => simp [decorator_terminal_id] at hid
        | exprStmt a => simp [decorator_terminal_id] at hid
        | passStmt => simp [decorator_terminal_id] at hid
        | annAssign a b => simp [decorator_terminal_id] at hid
        | importStmt a => simp [decorator_terminal_id] at hid
        | importFrom a b => simp [decorator_terminal_id] at hid
        | argNode a b => simp [decorator_terminal_id] at hid
        | constantE a => simp [decorator_terminal_id] at hid
        | subscriptE a b => simp [decorator_terminal_id] at hid
        | tupleE a => simp [decorator_terminal_id] at hid
        | boolOpE a b => simp [decorator_terminal_id] at hid
    | module b => simp [decorator_terminal_id] at hid
    | functionDef a b c d e f g h i => simp [decorator_terminal_id] at hid
    | asyncFunctionDef a b c d e f g h i => simp [decorator_terminal_id] at hid
    | classDef a b c d => simp [decorator_terminal_id] at hid
    | ifStmt a b c => simp [decorator_terminal_id] at hid
    | whileStmt a b c => simp [decorator_terminal_id] at hid
    | forStmt a b c d => simp [decorator_terminal_id] at hid
    | tryStmt a b c d => simp [decorator_terminal_id] at hid
    | exceptHandler a => simp [decorator_terminal_id] at hid
    | returnStmt a => simp [decorator_terminal_id] at hid
    | exprStmt a => simp [decorator_terminal_id] at hid
    | passStmt => simp [decorator_terminal_id] at hid
    | annAssign a b => simp [decorator_terminal_id] at hid
    | importStmt a => simp [decorator_terminal_id] at hid
    | importFrom a b => simp [decorator_terminal_id] at hid
    | argNode a b => simp [decorator_terminal_id] at hid
    | constantE a => simp [decorator_terminal_id] at hid
    | subscriptE a b => simp [decorator_terminal_id] at hid
    | tupleE a => simp [decorator_terminal_id] at hid
    | boolOpE a b => simp [decorator_terminal_id] at hid
  · intro node
    cases node <;> exact ⟨rfl, rfl⟩

/-- Witness for the amended C7 at the `@staticmethod`-decorated method. -/
theorem C7_amended_witness :
    has_decorator staticHelperNode "staticmethod" = true ∧
    (extract_function_info staticHelperNode).is_static = none ∧
    (extract_function_info staticHelperNode).is_classmethod = none :=
  ⟨C7_amended_has_decorator_vs_pipeline_record.1 staticHelperNode (.nameE "staticmethod")
      "staticmethod" (List.mem_singleton.mpr rfl) rfl,
    C7_amended_has_decorator_vs_pipeline_record.2 staticHelperNode⟩

/-- C6 counterexample: for the anno `Union[str, int]` the generated
strategy is not the two-way choice between the first member's (`str`)
strategy and the null strategy; the code hard-codes the `int` strategy. -/
theorem C6_counterexample_union_first_member :
    pyIn "Union[" "Union[str, int]" = true ∧
    spec_union_first_member "Union[str, int]" = "str" ∧
    PropertyBasedTestGenerator.get_strategy_for_type "Union[str, int]" "value" ≠
      spec_union_choice_strategy "Union[str, int]" := by
  refine ⟨by decide, by decide, by decide⟩

/-- C6 (amended): for every argument whose anno string contains
`Union[`, the property-based generator assigns the fixed two-way strategy
choosing between the bounded-integer strategy and the none strategy,
regardless of the Union's member types. -/
theorem C6_amended_union_int_strategy :
    ∀ (type_hint arg_name : String), pyIn "Union[" type_hint = true →
      PropertyBasedTestGenerator.get_strategy_for_type type_hint arg_name =
        "st.one_of(st.integers(min_value=-1000, max_value=1000), st.none())" := by
  intro th an h
  simp only [PropertyBasedTestGenerator.get_strategy_for_type]
  by_cases ho : pyIn "Optional[" th = true
  · rw [if_pos ho, if_pos (union_survives_strip th h)]
    decide
  · rw [if_neg ho, if_pos h]
    decide

/-- Witness for the amended C6 at `Union[str, int]`. -/
theorem C6_amended_witness :
    pyIn "Union[" "Union[str, int]" = true ∧
    PropertyBasedTestGenerator.get_strategy_for_type "Union[str, int]" "value" =
      "st.one_of(st.integers(min_value=-1000, max_value=1000), st.none())" :=
  ⟨by decide, C6_amended_union_int_strategy "Union[str, int]" "value" (by decide)⟩

/-- C5 counterexample: the pipeline's records never carry a `body` key, yet a
function merely named `recursive_step` receives the stack-overflow-risk
finding; its (absent, hence empty) body does not contain `recursive`. -/
theorem C5_counterexample_name_triggers_without_body :
    ("recursive_step: recursive function - stack overflow risk") ∈
      FailureModeDetector.detect [recursiveStepRecord] [] ∧
    recursiveStepRecord.body = none ∧
    pyIn "recursive" (pyLower (recursiveStepRecord.body.getD "")) = false := by
  refine ⟨by decide, rfl, by decide⟩

/-! ### Helpers for locating a finding among the guarded blocks -/

theorem mem_if_list {p : Prop} [Decidable p] {a : String} {l : List String} :
    (a ∈ if p then l else []) ↔ p ∧ a ∈ l := by
  split <;> simp_all

theorem mem_if_nil {p : Prop} [Decidable p] {a : String} {l : List String} :
    (a ∈ if p then [] else l) ↔ ¬ p ∧ a ∈ l := by
  split <;> simp_all

theorem not_mem_guard_one {p : Prop} [Decidable p] {a e1 : String} (h1 : a ≠ e1) :
    a ∉ (if p then [e1] else []) := by
  intro h
  rcases mem_if_list.mp h with ⟨_, hin⟩
  rcases List.mem_cons.mp hin with he | hin
  · exact h1 he
  · simp at hin

theorem not_mem_guard_two {p : Prop} [Decidable p] {a e1 e2 : String}
    (h1 : a ≠ e1) (h2 : a ≠ e2) : a ∉ (if p then [e1, e2] else []) := by
  intro h
  rcases mem_if_list.mp h with ⟨_, hin⟩
  rcases List.mem_cons.mp hin with he | hin
  · exact h1 he
  rcases List.mem_cons.mp hin with he | hin
  · exact h2 he
  · simp at hin

/-- C5 (amended): the stack-overflow-risk finding for a function is emitted
exactly when the function's lowercased name contains `recursive` or the
function's textual body — when available; the pipeline extractor never
provides one — lowercased, contains `recursion`. -/
theorem C5_amended_recursion_finding_iff :
    ∀ func : FunctionRecord,
      ((func.name ++ ": recursive function - stack overflow risk") ∈
          FailureModeDetector.detect [func] [] ↔
        (pyIn "recursive" (pyLower func.name) = true ∨
          pyIn "recursion" (pyLower (func.body.getD "")) = true)) := by
  intro func
  have hpre : FailureModeDetector.pre_detect [func] [] =
      FailureModeDetector.detect_function_failure_modes func := by
    simp [FailureModeDetector.pre_detect]
  rw [show FailureModeDetector.detect [func] [] =
      dedupFS (FailureModeDetector.pre_detect [func] []) from rfl, mem_dedupFS, hpre]
  constructor
  · intro hmem
    simp only [FailureModeDetector.detect_function_failure_modes] at hmem
    rcases List.mem_append.mp hmem with h | h
    rcases List.mem_append.mp h with h | h
    rcases List.mem_append.mp h with h | h
    rcases List.mem_append.mp h with h | h
    rcases List.mem_append.mp h with h | h
    rcases List.mem_append.mp h with h | h
    rcases List.mem_append.mp h with h | h
    rcases List.mem_append.mp h with h | h
    rcases List.mem_append.mp h with h | h
    rcases List.mem_append.mp h with h | h
    -- B1: get/find/search
    · exact absurd h (not_mem_guard_two (ne_lit_lit _ _ _ (by decide))
        (ne_lit_lit _ _ _ (by decide)))
    -- B2: parse/load/read
    · exact absurd h (not_mem_guard_two (ne_lit_lit _ _ _ (by decide))
        (ne_lit_lit _ _ _ (by decide)))
    -- B3: delete/remove
    · exact absurd h (not_mem_guard_two (ne_lit_lit _ _ _ (by decide))
        (ne_lit_lit _ _ _ (by decide)))
    -- B4: validate/check
    · exact absurd h (not_mem_guard_one (ne_lit_lit _ _ _ (by decide)))
    -- argument loop
    · obtain ⟨arg, _, h⟩ := List.mem_flatMap.mp h
      rcases List.mem_append.mp h with h | h
      · exact absurd h (not_mem_guard_two (ne_lit_cat _ _ _ _ (by decide) (by decide))
          (ne_lit_cat _ _ _ _ (by decide) (by decide)))
      · exact absurd h (not_mem_guard_one (ne_lit_cat _ _ _ _ (by decide) (by decide)))
    -- return-type block
    · rcases hr : func.return_type with _ | rt
      · rw [hr] at h
        simp at h
      · rw [hr] at h
        have h' : (func.name ++ ": recursive function - stack overflow risk") ∈
            (if rt = "" then ([] : List String) else
              (if pyIn "Optional" rt || pyIn "None" rt then
                [func.name ++ ": returns Optional - caller may not check for None"] else []) ++
              (if ["List", "Dict", "Set", "Tuple"].any (fun t => pyIn t rt) then
                [func.name ++ ": may return empty collection"] else [])) := h
        rcases mem_if_nil.mp h' with ⟨_, h''⟩
        rcases List.mem_append.mp h'' with h | h
        · exact absurd h (not_mem_guard_one (ne_lit_lit _ _ _ (by decide)))
        · exact absurd h (not_mem_guard_one (ne_lit_lit _ _ _ (by decide)))
    -- async block
    · exact absurd h (not_mem_guard_two (ne_lit_lit _ _ _ (by decide))
        (ne_lit_lit _ _ _ (by decide)))
    -- recursion block: extract the guard
    · have hg := (mem_if_list.mp h).1
      simp only [Bool.or_eq_true] at hg
      exact hg
    -- complexity block
    · exact absurd h (not_mem_guard_one (ne_lit_cat _ _ _ _ (by decide) (by decide)))
    -- varargs block
    · exact absurd h (not_mem_guard_one (ne_lit_lit _ _ _ (by decide)))
    -- kwargs block
    · exact absurd h (not_mem_guard_one (ne_lit_lit _ _ _ (by decide)))
  · intro hg
    have hg' : (pyIn "recursive" (pyLower func.name) ||
        pyIn "recursion" (pyLower (func.body.getD ""))) = true := by
      rcases hg with h | h <;> simp [h]
    simp only [FailureModeDetector.detect_function_failure_modes]
    refine List.mem_append.mpr (Or.inl ?_)
    refine List.mem_append.mpr (Or.inl ?_)
    refine List.mem_append.mpr (Or.inl ?_)
    refine List.mem_append.mpr (Or.inr ?_)
    rw [if_pos hg']
    exact List.mem_cons_self _ _
